import Mathlib

/-!
Verification of the JointQ (IQL / VDN / QMIX) value-decomposition training core
of marllib (file marllib/marl/algos/core/VD/iql_vdn_qmix.py).

The embedding represents tensors of shape [B, T, n_agents, ...] as curried
functions out of natural-number indices; the loss and policy code only ever
reads indices below the bounds B, T, n_agents, n_actions that are passed
alongside.  Machine floats are modelled as rationals (the reward-standardize
path, which takes a square root, is modelled over the reals).  The negative
infinity written into masked Q-values is modelled by the bottom element of
WithBot Rat.  The value estimator (RNNModel / JointQRNN, an external
collaborator unrolled by the library helper) is modelled as a step function
carrying a recurrent hidden state, exactly the contract the loss relies on.
-/

set_option maxHeartbeats 1000000
set_option maxRecDepth 4000
set_option linter.unusedVariables false

/-- Dual numbers over the rationals: a value together with a directional
derivative with respect to one scalar parameter.  They model what the autograd
engine tracks for each scalar; detaching a tensor zeroes its derivative. -/
structure Dual where
  val : ℚ
  der : ℚ
  deriving DecidableEq

/-- Addition of dual numbers. -/
def Dual.add (a b : Dual) : Dual := ⟨a.val + b.val, a.der + b.der⟩

/-- Subtraction of dual numbers. -/
def Dual.sub (a b : Dual) : Dual := ⟨a.val - b.val, a.der - b.der⟩

/-- Multiplication of dual numbers (product rule). -/
def Dual.mul (a b : Dual) : Dual := ⟨a.val * b.val, a.val * b.der + a.der * b.val⟩

/-- A constant (parameter-independent) dual number. -/
def Dual.const (q : ℚ) : Dual := ⟨q, 0⟩

/-- Detach: keep the value, drop the gradient (torch .detach()). -/
def Dual.detach (d : Dual) : Dual := ⟨d.val, 0⟩

instance : Add Dual := ⟨Dual.add⟩
instance : Sub Dual := ⟨Dual.sub⟩
instance : Mul Dual := ⟨Dual.mul⟩
instance : Zero Dual := ⟨⟨0, 0⟩⟩

instance : AddCommMonoid Dual where
  add_assoc a b c := by
    show Dual.add (Dual.add a b) c = Dual.add a (Dual.add b c)
    simp [Dual.add, add_assoc]
  zero_add a := by
    show Dual.add ⟨0, 0⟩ a = a
    simp [Dual.add]
  add_zero a := by
    show Dual.add a ⟨0, 0⟩ = a
    simp [Dual.add]
  add_comm a b := by
    show Dual.add a b = Dual.add b a
    simp [Dual.add, add_comm]
  nsmul := nsmulRec

/-- Taking the value of a dual number is additive. -/
def Dual.valHom : Dual →+ ℚ where
  toFun := Dual.val
  map_zero' := rfl
  map_add' _ _ := rfl

/-- Observation vectors (and global-state vectors) are flat rational vectors. -/
abbrev ObsVec := ℕ → ℚ

/-- The value-estimator contract consumed by the training core: a recurrent
model with initial hidden state and a step function producing, from the hidden
state and one observation, the next hidden state and the Q-vector of that
step.  The library helper unrolls this step function over a whole observation
sequence, per batch row and per agent. -/
structure QEstimator (H : Type) where
  init : H
  step : H → ObsVec → H × (ℕ → ℚ)

/-- Hidden state of the estimator before processing step t of the sequence. -/
def hiddenAt {H : Type} (E : QEstimator H) (os : ℕ → ObsVec) : ℕ → H
  | 0 => E.init
  | t + 1 => (E.step (hiddenAt E os t) (os t)).1

/-- Q-values emitted at step t of the unroll (the helper that runs the model
over the whole concatenated observation sequence in one pass). -/
def qAt {H : Type} (E : QEstimator H) (os : ℕ → ObsVec) (t : ℕ) : ℕ → ℚ :=
  (E.step (hiddenAt E os t) (os t)).2

/-- Index below N of the first occurrence of the maximal value of f, as
computed by the argmax over the action dimension. -/
def argmaxQ (N : ℕ) (f : ℕ → WithBot ℚ) : ℕ :=
  (List.range N).foldl (fun best n => if f best < f n then n else best) 0

/-- Maximum of f over indices below N (bottom when N is zero). -/
def listMaxQ (N : ℕ) (f : ℕ → WithBot ℚ) : WithBot ℚ :=
  (List.range N).foldl (fun m n => max m (f n)) ⊥

/-- A mixing network: per-agent Q-values (indexed by agent) and a global-state
vector go to one joint scalar Q-value. -/
abbrev MixFn := (ℕ → ℚ) → (ℕ → ℚ) → ℚ

/-- Modelled from the spec: the additive VDN mixer (class VDNMixer of
marllib.marl.models.zoo.mixer, a file of this repository that is not among the
provided sources).  Per the spec it returns the sum of the per-agent Q-values
and needs no additional input, so the state argument is ignored. -/
def vdnMixer (nAgents : ℕ) : MixFn := fun agentQs _ => ∑ a ∈ Finset.range nAgents, agentQs a

/-- The JointQLoss module: online and target estimators, optional mixer and
target mixer, agent/action counts, the double-Q flag and the discount. -/
structure JointQLoss (H : Type) where
  model : QEstimator H
  target_model : QEstimator H
  mixer : Option MixFn
  target_mixer : Option MixFn
  n_agents : ℕ
  n_actions : ℕ
  double_q : Bool
  gamma : ℚ

/-- The tensor arguments of JointQLoss.forward.  actionMask (the current-step
action mask) is accepted but never read by the loss, exactly as in the source.
obsSize records the per-agent observation width, used only to present the
observations as the default global state when none is supplied. -/
structure LossArgs where
  rewards : ℕ → ℕ → ℕ → ℚ
  actions : ℕ → ℕ → ℕ → ℕ
  terminated : ℕ → ℕ → ℕ → ℚ
  mask : ℕ → ℕ → ℕ → ℚ
  obs : ℕ → ℕ → ℕ → ObsVec
  nextObs : ℕ → ℕ → ℕ → ObsVec
  actionMask : ℕ → ℕ → ℕ → ℕ → ℚ
  nextActionMask : ℕ → ℕ → ℕ → ℕ → ℚ
  stateOpt : Option (ℕ → ℕ → ObsVec)
  nextStateOpt : Option (ℕ → ℕ → ObsVec)
  obsSize : ℕ

/-- Position t of the length-(T+1) observation sequence obtained by
concatenating the first current-observation step with the whole next-step
observation sequence. -/
def wholeObs (args : LossArgs) (b t a : ℕ) : ObsVec :=
  if t = 0 then args.obs b 0 a else args.nextObs b (t - 1) a

/-- Online Q-values at position t of the unrolled sequence (mac_out). -/
def macOut {H : Type} (L : JointQLoss H) (args : LossArgs) (b t a : ℕ) : ℕ → ℚ :=
  qAt L.model (fun s => wholeObs args b s a) t

/-- Q-value of the action actually taken, gathered at timestep t. -/
def chosenActionQvals {H : Type} (L : JointQLoss H) (args : LossArgs) (b t a : ℕ) : ℚ :=
  macOut L args b t a (args.actions b t a)

/-- Target-network Q-values for the next step: position t+1 of the target
unroll (target_mac_out after dropping its first step). -/
def targetMacOutNext {H : Type} (L : JointQLoss H) (args : LossArgs) (b t a : ℕ) : ℕ → ℚ :=
  qAt L.target_model (fun s => wholeObs args b s a) (t + 1)

/-- An action is ignored at step t+1 when its next-step action mask is 0 and
the timestep itself is valid (ignore_action_tp1). -/
def ignoreActionTp1 (args : LossArgs) (b t a n : ℕ) : Bool :=
  decide (args.nextActionMask b t a n = 0 ∧ args.mask b t a = 1)

/-- Target next-step Q-values with ignored actions forced to negative
infinity, the tensor every target max / gather reads. -/
def maskedTargetNext {H : Type} (L : JointQLoss H) (args : LossArgs) (b t a n : ℕ) : WithBot ℚ :=
  if ignoreActionTp1 args b t a n then ⊥ else (targetMacOutNext L args b t a n : ℚ)

/-- Detached online next-step Q-values with ignored actions forced to negative
infinity (mac_out_tp1 after masking); the clone-and-detach changes no value. -/
def maskedOnlineNext {H : Type} (L : JointQLoss H) (args : LossArgs) (b t a n : ℕ) : WithBot ℚ :=
  if ignoreActionTp1 args b t a n then ⊥ else (macOut L args b (t + 1) a n : ℚ)

/-- Best next-step action according to the (detached) online network
(cur_max_actions). -/
def curMaxActions {H : Type} (L : JointQLoss H) (args : LossArgs) (b t a : ℕ) : ℕ :=
  argmaxQ L.n_actions (maskedOnlineNext L args b t a)

/-- Target max Q-values before the assertion: in double-Q mode the target
network evaluated at the online argmax, otherwise the plain max of the masked
target Q-values. -/
def targetMaxQvalsW {H : Type} (L : JointQLoss H) (args : LossArgs) (b t a : ℕ) : WithBot ℚ :=
  if L.double_q then maskedTargetNext L args b t a (curMaxActions L args b t a)
  else listMaxQ L.n_actions (maskedTargetNext L args b t a)

/-- Target max Q-values as rationals; the assertion in forward guarantees no
bottom remains within bounds when this is consumed. -/
def targetMaxQvals {H : Type} (L : JointQLoss H) (args : LossArgs) (b t a : ℕ) : ℚ :=
  (targetMaxQvalsW L args b t a).unbot' 0

/-- Effective global state at (b, t): the given state, or in its absence the
agents' observations presented as one flat vector (state defaults to obs). -/
def effState (args : LossArgs) (b t : ℕ) : ObsVec :=
  match args.stateOpt with
  | some s => s b t
  | none => fun k => args.obs b t (k / args.obsSize) (k % args.obsSize)

/-- Effective next-step global state at (b, t), defaulting to the next-step
observations. -/
def effNextState (args : LossArgs) (b t : ℕ) : ObsVec :=
  match args.nextStateOpt with
  | some s => s b t
  | none => fun k => args.nextObs b t (k / args.obsSize) (k % args.obsSize)

/-- Chosen Q-values after the optional mixing step: per-agent values when no
mixer is configured, otherwise the joint mixed scalar of the per-agent values
(broadcast over the agent index, as the mixed [B,T,1] tensor broadcasts).
When a mixer is configured but no target mixer exists the source would crash
calling None; the constructor always installs both, so the default is never
exercised. -/
def mixedChosen {H : Type} (L : JointQLoss H) (args : LossArgs) (b t a : ℕ) : ℚ :=
  match L.mixer with
  | none => chosenActionQvals L args b t a
  | some f => f (fun i => chosenActionQvals L args b t i) (effState args b t)

/-- Target max Q-values after the optional mixing step (the target mixer reads
the next-step state). -/
def mixedTargetMax {H : Type} (L : JointQLoss H) (args : LossArgs) (b t a : ℕ) : ℚ :=
  match L.mixer with
  | none => targetMaxQvals L args b t a
  | some _ =>
    (L.target_mixer.getD (fun _ _ => 0)) (fun i => targetMaxQvals L args b t i)
      (effNextState args b t)

/-- One-step Q-learning targets. -/
def tdTargets {H : Type} (L : JointQLoss H) (args : LossArgs) (b t a : ℕ) : ℚ :=
  args.rewards b t a + L.gamma * (1 - args.terminated b t a) * mixedTargetMax L args b t a

/-- TD error (the targets are detached, which leaves their values as they
are; the gradient side is modelled by tdStageLoss below). -/
def tdError {H : Type} (L : JointQLoss H) (args : LossArgs) (b t a : ℕ) : ℚ :=
  mixedChosen L args b t a - tdTargets L args b t a

/-- TD error with the padding entries zeroed by the validity mask. -/
def maskedTd {H : Type} (L : JointQLoss H) (args : LossArgs) (b t a : ℕ) : ℚ :=
  tdError L args b t a * args.mask b t a

/-- Sum of the validity mask over the whole [B, T, n_agents] grid. -/
def maskSum (B T A : ℕ) (mask : ℕ → ℕ → ℕ → ℚ) : ℚ :=
  ∑ b ∈ Finset.range B, ∑ t ∈ Finset.range T, ∑ a ∈ Finset.range A, mask b t a

/-- The scalar loss: sum of squared masked TD errors divided by the number of
valid mask entries. -/
def lossValue {H : Type} (L : JointQLoss H) (B T : ℕ) (args : LossArgs) : ℚ :=
  (∑ b ∈ Finset.range B, ∑ t ∈ Finset.range T, ∑ a ∈ Finset.range L.n_agents,
      maskedTd L args b t a * maskedTd L args b t a)
    / maskSum B T L.n_agents args.mask

/-- Everything JointQLoss.forward returns. -/
structure LossOutput where
  loss : ℚ
  maskOut : ℕ → ℕ → ℕ → ℚ
  maskedTdError : ℕ → ℕ → ℕ → ℚ
  chosen : ℕ → ℕ → ℕ → ℚ
  targets : ℕ → ℕ → ℕ → ℚ

/-- The assertion condition: some in-bounds target max Q-value is negative
infinity, meaning every action there was masked. -/
def assertFailed {H : Type} (L : JointQLoss H) (B T : ℕ) (args : LossArgs) : Prop :=
  ∃ b < B, ∃ t < T, ∃ a < L.n_agents, targetMaxQvalsW L args b t a = ⊥

instance {H : Type} (L : JointQLoss H) (B T : ℕ) (args : LossArgs) :
    Decidable (assertFailed L B T args) := by
  unfold assertFailed; infer_instance

/-- Forward pass of the loss.  The state consistency check raises before any
computation; the assertion raises after target selection and before mixing. -/
def JointQLoss.forward {H : Type} (L : JointQLoss H) (B T : ℕ) (args : LossArgs) :
    Except String LossOutput :=
  if args.stateOpt.isSome != args.nextStateOpt.isSome then
    .error "Expected either neither or both of state and next_state to be given"
  else if assertFailed L B T args then
    .error "target_max_qvals contains a masked action"
  else
    .ok { loss := lossValue L B T args
        , maskOut := args.mask
        , maskedTdError := maskedTd L args
        , chosen := mixedChosen L args
        , targets := tdTargets L args }

/-- The loss component of a forward result, when it succeeded. -/
def lossOf (r : Except String LossOutput) : Option ℚ :=
  match r with
  | .ok o => some o.loss
  | .error _ => none

/-- Whether a forward call succeeded. -/
def isOkE (r : Except String LossOutput) : Bool :=
  match r with
  | .ok _ => true
  | .error _ => false

/-- The final stage of the loss (targets, detach, TD error, masking,
normalized sum of squares) over dual numbers, so that the gradient behaviour
of the detach is visible.  The mask and the normalizer are data, hence
constants. -/
def tdStageTerm (gamma : ℚ) (rewards terminated mask : ℕ → ℕ → ℕ → ℚ)
    (chosenD targetD : ℕ → ℕ → ℕ → Dual) (b t a : ℕ) : Dual :=
  (chosenD b t a -
      Dual.detach (Dual.const (rewards b t a) +
        Dual.const (gamma * (1 - terminated b t a)) * targetD b t a))
    * Dual.const (mask b t a)

/-- The whole final stage: normalized sum of squared masked TD errors, with
the mask count entering as a constant. -/
def tdStageLoss (B T A : ℕ) (gamma : ℚ) (rewards terminated mask : ℕ → ℕ → ℕ → ℚ)
    (chosenD targetD : ℕ → ℕ → ℕ → Dual) : Dual :=
  (∑ b ∈ Finset.range B, ∑ t ∈ Finset.range T, ∑ a ∈ Finset.range A,
      tdStageTerm gamma rewards terminated mask chosenD targetD b t a *
        tdStageTerm gamma rewards terminated mask chosenD targetD b t a)
    * Dual.const (∑ b ∈ Finset.range B, ∑ t ∈ Finset.range T, ∑ a ∈ Finset.range A,
        mask b t a)⁻¹

/-- The parameter state of a JointQPolicy: online and target model parameter
vectors, and the optional mixer / target-mixer parameter vectors. -/
structure JointQPolicy where
  model : List ℚ
  target_model : List ℚ
  mixer : Option (List ℚ)
  target_mixer : Option (List ℚ)

/-- Overwrite the target parameters with the online parameters: a full copy
of the model state and, when a mixer is configured, of the mixer state. -/
def JointQPolicy.update_target (s : JointQPolicy) : JointQPolicy :=
  { s with target_model := s.model
         , target_mixer := if s.mixer.isSome then s.mixer else s.target_mixer }

/-- Construction of the policy: the freshly built parameters followed by the
initial target synchronization performed by the constructor. -/
def JointQPolicy.construct (model target_model : List ℚ)
    (mixer target_mixer : Option (List ℚ)) : JointQPolicy :=
  JointQPolicy.update_target
    { model := model, target_model := target_model
    , mixer := mixer, target_mixer := target_mixer }

/-- One optimizer step over a flat parameter vector (the concrete update rule
of the configured optimizer is irrelevant here; what matters is which
parameters it receives). -/
def optimizerStep (lr : ℚ) (grad : List ℚ → List ℚ) (ps : List ℚ) : List ℚ :=
  List.zipWith (fun p g => p - lr * g) ps (grad ps)

/-- One training call, as far as parameters are concerned: the optimizer is
handed exactly the online model parameters concatenated with the online mixer
parameters (self.params), and the updated vector is written back to those two
components. -/
def JointQPolicy.learn_on_batch (lr : ℚ) (grad : List ℚ → List ℚ)
    (s : JointQPolicy) : JointQPolicy :=
  let params := s.model ++ s.mixer.getD []
  let updated := optimizerStep lr grad params
  { model := updated.take s.model.length
  , target_model := s.target_model
  , mixer := s.mixer.map fun _ => updated.drop s.model.length
  , target_mixer := s.target_mixer }

/-- The weight blob: a flat mapping from component name to an optional
parameter vector; the mixer entries are None when no mixer is configured. -/
def JointQPolicy.get_weights (s : JointQPolicy) : List (String × Option (List ℚ)) :=
  [("model", some s.model),
   ("target_model", some s.target_model),
   ("mixer", if s.mixer.isSome then s.mixer else none),
   ("target_mixer", if s.mixer.isSome then s.target_mixer else none)]

/-- Value stored under a key of a weight blob. -/
def weightEntry (w : List (String × Option (List ℚ))) (k : String) : Option (List ℚ) :=
  (w.lookup k).getD none

/-- Load a weight blob: model and target model are loaded unconditionally,
the mixer pair only when the blob's mixer entry is present. -/
def JointQPolicy.set_weights (s : JointQPolicy)
    (w : List (String × Option (List ℚ))) : JointQPolicy :=
  { model := (weightEntry w "model").getD s.model
  , target_model := (weightEntry w "target_model").getD s.target_model
  , mixer := if (weightEntry w "mixer").isSome then weightEntry w "mixer" else s.mixer
  , target_mixer :=
      if (weightEntry w "mixer").isSome then weightEntry w "target_mixer" else s.target_mixer }

/-- The numpy tile of arange(T) repeated B times, flattened. -/
def tiledArange : ℕ → ℕ → List ℕ
  | 0, _ => []
  | B + 1, T => List.range T ++ tiledArange B T

/-- Length of the longest fragment, T = max(seq_lens). -/
def seqMax (seqLens : List ℕ) : ℕ := seqLens.foldl max 0

/-- The validity mask built in learn_on_batch: filled = tiled arange(T)
reshaped to [B, T] compared against the fragment lengths, then expanded over
the agent dimension. -/
def makeMask (seqLens : List ℕ) (b t a : ℕ) : ℚ :=
  if (tiledArange seqLens.length (seqMax seqLens)).getD (b * seqMax seqLens + t) 0 <
      seqLens.getD b 0 then 1 else 0

/-- Q-values of compute_actions with unavailable actions forced to negative
infinity before any sampling or argmax (masked_q_values). -/
def maskedQValues (q avail : ℕ → ℕ → ℕ → ℚ) (b a n : ℕ) : WithBot ℚ :=
  if avail b a n = 0 then ⊥ else (q b a n : ℚ)

/-- Modelled from the spec: the epsilon-greedy exploration used by
compute_actions (the EpsilonGreedy exploration class is an external
collaborator, not among this repository's sources).  With the explore flag
set it picks, on a random draw (represented by useRandom and the random index
r), a uniformly random action among those whose logit is not negative
infinity, and otherwise the argmax action; with explore unset it always takes
the argmax.  Actions with logit negative infinity are never candidates. -/
def explorationAction (N : ℕ) (logits : ℕ → WithBot ℚ) (explore useRandom : Bool) (r : ℕ) : ℕ :=
  if explore && useRandom then
    let valid := (List.range N).filter fun n => decide (logits n ≠ ⊥)
    valid.getD (r % valid.length) 0
  else
    argmaxQ N logits

/-- The action compute_actions selects for batch row b, agent a. -/
def computeActionSel (N : ℕ) (q avail : ℕ → ℕ → ℕ → ℚ)
    (explore useRandom : Bool) (r b a : ℕ) : ℕ :=
  explorationAction N (maskedQValues q avail b a) explore useRandom r

/-- Mean of a [B, T, A] grid over all of its entries. -/
noncomputable def gridMean (B T A : ℕ) (x : ℕ → ℕ → ℕ → ℝ) : ℝ :=
  (∑ b ∈ Finset.range B, ∑ t ∈ Finset.range T, ∑ a ∈ Finset.range A, x b t a)
    / (B * T * A : ℝ)

/-- Unbiased standard deviation of a [B, T, A] grid over all of its entries
(torch .std()); the float square root is idealized as the real one. -/
noncomputable def gridStd (B T A : ℕ) (x : ℕ → ℕ → ℕ → ℝ) : ℝ :=
  Real.sqrt ((∑ b ∈ Finset.range B, ∑ t ∈ Finset.range T, ∑ a ∈ Finset.range A,
      (x b t a - gridMean B T A x) ^ 2) / ((B * T * A : ℝ) - 1))

/-- The [B*T, n_agents] reward array reshaped to [B, T, n_agents]
(to_batches). -/
def reshapeRewards (T : ℕ) (rewFlat : ℕ → ℕ → ℝ) (b t a : ℕ) : ℝ :=
  rewFlat (b * T + t) a

/-- Rewards after the division by n_agents (= A). -/
noncomputable def scaledRewards (T A : ℕ) (rewFlat : ℕ → ℕ → ℝ) (b t a : ℕ) : ℝ :=
  reshapeRewards T rewFlat b t a / (A : ℝ)

/-- The rewards learn_on_batch hands to the loss: reshaped, divided by
n_agents, and standardized over the whole batch when the flag is set. -/
noncomputable def lossRewards (B T A : ℕ) (standardize : Bool)
    (rewFlat : ℕ → ℕ → ℝ) (b t a : ℕ) : ℝ :=
  if standardize then
    (scaledRewards T A rewFlat b t a - gridMean B T A (scaledRewards T A rewFlat))
      / (gridStd B T A (scaledRewards T A rewFlat) + 1 / 100000)
  else scaledRewards T A rewFlat b t a

/-- A concrete estimator for witnesses: no hidden state, the Q-vector is the
observation vector itself. -/
def idEstimator : QEstimator Unit := ⟨(), fun h o => (h, o)⟩

/-- Witness loss module: one agent, one action, no mixer, double-Q, discount
nine tenths. -/
def LC1 : JointQLoss Unit :=
  { model := idEstimator, target_model := idEstimator
  , mixer := none, target_mixer := none
  , n_agents := 1, n_actions := 1, double_q := true, gamma := 9 / 10 }

/-- Witness batch: one row, one timestep, reward one, not terminated, valid,
online Q five, target next-step Q two. -/
def argsC1 : LossArgs :=
  { rewards := fun _ _ _ => 1
  , actions := fun _ _ _ => 0
  , terminated := fun _ _ _ => 0
  , mask := fun _ _ _ => 1
  , obs := fun _ _ _ _ => 5
  , nextObs := fun _ _ _ _ => 2
  , actionMask := fun _ _ _ _ => 1
  , nextActionMask := fun _ _ _ _ => 1
  , stateOpt := none, nextStateOpt := none, obsSize := 1 }

/-- The output record forward produces on the C1 witness batch. -/
def outC1 : LossOutput :=
  { loss := lossValue LC1 1 1 argsC1
  , maskOut := argsC1.mask
  , maskedTdError := maskedTd LC1 argsC1
  , chosen := mixedChosen LC1 argsC1
  , targets := tdTargets LC1 argsC1 }

/-- Loss module for the C2 counterexample: one agent, two actions. -/
def LC2 : JointQLoss Unit :=
  { model := idEstimator, target_model := idEstimator
  , mixer := none, target_mixer := none
  , n_agents := 1, n_actions := 2, double_q := true, gamma := 9 / 10 }

/-- Counterexample batch for C2: one fragment of length 1 padded to T = 2.
At the padded timestep (t = 1) the next-step action mask allows only action 0,
but the online next-step Q-values prefer action 1; because the timestep is
padded, no negative-infinity masking is applied there. -/
def argsC2 : LossArgs :=
  { rewards := fun _ _ _ => 0
  , actions := fun _ _ _ => 0
  , terminated := fun _ _ _ => 0
  , mask := fun _ t _ => if t = 0 then 1 else 0
  , obs := fun _ _ _ _ => 0
  , nextObs := fun _ t _ n => if t = 0 then 0 else if n = 0 then 0 else 5
  , actionMask := fun _ _ _ _ => 1
  , nextActionMask := fun _ t _ n => if t = 0 then 1 else if n = 0 then 1 else 0
  , stateOpt := none, nextStateOpt := none, obsSize := 1 }

/-- Base batch for the C3 witness: one fragment of length 1 padded to T = 2,
all action masks open. -/
def argsC3 : LossArgs :=
  { rewards := fun _ _ _ => 1
  , actions := fun _ _ _ => 0
  , terminated := fun _ _ _ => 0
  , mask := fun _ t _ => if t < 1 then 1 else 0
  , obs := fun _ _ _ _ => 0
  , nextObs := fun _ _ _ _ => 0
  , actionMask := fun _ _ _ _ => 1
  , nextActionMask := fun _ _ _ _ => 1
  , stateOpt := none, nextStateOpt := none, obsSize := 1 }

/-- The C3 base batch with different garbage in the padded region (rewards and
next observations at t = 1). -/
def args2C3 : LossArgs :=
  { argsC3 with
    rewards := fun _ t _ => if t = 0 then 1 else 42
  , nextObs := fun _ t _ _ => if t = 0 then 0 else 7 }

/-- Batch for the C4 witness: a valid timestep at which every next-step
action is masked out. -/
def argsC4 : LossArgs :=
  { rewards := fun _ _ _ => 0
  , actions := fun _ _ _ => 0
  , terminated := fun _ _ _ => 0
  , mask := fun _ _ _ => 1
  , obs := fun _ _ _ _ => 0
  , nextObs := fun _ _ _ _ => 0
  , actionMask := fun _ _ _ _ => 1
  , nextActionMask := fun _ _ _ _ => 0
  , stateOpt := none, nextStateOpt := none, obsSize := 1 }

/-- Loss module for the C5 counterexample with no mixer: two agents. -/
def LC5none : JointQLoss Unit :=
  { model := idEstimator, target_model := idEstimator
  , mixer := none, target_mixer := none
  , n_agents := 2, n_actions := 1, double_q := true, gamma := 9 / 10 }

/-- The same module with the additive VDN mixer installed. -/
def LC5vdn : JointQLoss Unit :=
  { LC5none with mixer := some (vdnMixer 2), target_mixer := some (vdnMixer 2) }

/-- Counterexample batch for C5: two agents whose target next-step Q-values
are one and minus one, so per-agent TD errors are nonzero while the summed
joint TD error vanishes. -/
def argsC5 : LossArgs :=
  { rewards := fun _ _ _ => 0
  , actions := fun _ _ _ => 0
  , terminated := fun _ _ _ => 0
  , mask := fun _ _ _ => 1
  , obs := fun _ _ _ _ => 0
  , nextObs := fun _ _ a _ => if a = 0 then 1 else -1
  , actionMask := fun _ _ _ _ => 1
  , nextActionMask := fun _ _ _ _ => 1
  , stateOpt := none, nextStateOpt := none, obsSize := 1 }

/-- A concrete policy parameter state with a mixer, for witnesses. -/
def polWithMixer : JointQPolicy :=
  { model := [1, 2], target_model := [3, 4], mixer := some [5], target_mixer := some [6] }

/-- A concrete policy parameter state without a mixer, for witnesses. -/
def polNoMixer : JointQPolicy :=
  { model := [1, 2], target_model := [3, 4], mixer := none, target_mixer := none }

/-- The foldl computing an argmax returns its seed or a list element. -/
theorem foldl_best_mem (f : ℕ → WithBot ℚ) (l : List ℕ) :
    ∀ b : ℕ,
      l.foldl (fun best n => if f best < f n then n else best) b = b ∨
      l.foldl (fun best n => if f best < f n then n else best) b ∈ l := by
  induction l with
  | nil => intro b; exact Or.inl rfl
  | cons n l ih =>
    intro b
    simp only [List.foldl_cons]
    rcases ih (if f b < f n then n else b) with h | h
    · rw [h]
      by_cases hc : f b < f n
      · rw [if_pos hc]; exact Or.inr (List.mem_cons_self n l)
      · rw [if_neg hc]; exact Or.inl rfl
    · exact Or.inr (List.mem_cons_of_mem n h)

/-- The foldl computing an argmax attains a value at least that of its seed
and of every list element. -/
theorem foldl_best_le (f : ℕ → WithBot ℚ) (l : List ℕ) :
    ∀ b : ℕ,
      f b ≤ f (l.foldl (fun best n => if f best < f n then n else best) b) ∧
      ∀ n ∈ l, f n ≤ f (l.foldl (fun best n => if f best < f n then n else best) b) := by
  induction l with
  | nil => intro b; exact ⟨le_rfl, by simp⟩
  | cons n l ih =>
    intro b
    simp only [List.foldl_cons]
    obtain ⟨h1, h2⟩ := ih (if f b < f n then n else b)
    have hb : f b ≤ f (if f b < f n then n else b) := by
      by_cases hc : f b < f n
      · rw [if_pos hc]; exact le_of_lt hc
      · rw [if_neg hc]
    have hn : f n ≤ f (if f b < f n then n else b) := by
      by_cases hc : f b < f n
      · rw [if_pos hc]
      · rw [if_neg hc]; exact le_of_not_lt hc
    refine ⟨le_trans hb h1, ?_⟩
    intro m hm
    rcases List.mem_cons.mp hm with rfl | hm
    · exact le_trans hn h1
    · exact h2 m hm

/-- The argmax index is in bounds when there is at least one action. -/
theorem argmaxQ_lt (N : ℕ) (f : ℕ → WithBot ℚ) (hN : 0 < N) : argmaxQ N f < N := by
  rcases foldl_best_mem f (List.range N) 0 with h | h
  · rw [argmaxQ, h]; exact hN
  · exact List.mem_range.mp h

/-- The argmax attains the maximum over indices below N. -/
theorem argmaxQ_le (N : ℕ) (f : ℕ → WithBot ℚ) (n : ℕ) (hn : n < N) :
    f n ≤ f (argmaxQ N f) :=
  (foldl_best_le f (List.range N) 0).2 n (List.mem_range.mpr hn)

/-- The foldl computing a max is at least its seed and every mapped list
element. -/
theorem foldl_max_le (f : ℕ → WithBot ℚ) (l : List ℕ) :
    ∀ m : WithBot ℚ,
      m ≤ l.foldl (fun acc n => max acc (f n)) m ∧
      ∀ n ∈ l, f n ≤ l.foldl (fun acc n => max acc (f n)) m := by
  induction l with
  | nil => intro m; exact ⟨le_rfl, by simp⟩
  | cons n l ih =>
    intro m
    simp only [List.foldl_cons]
    obtain ⟨h1, h2⟩ := ih (max m (f n))
    refine ⟨le_trans (le_max_left _ _) h1, ?_⟩
    intro k hk
    rcases List.mem_cons.mp hk with rfl | hk
    · exact le_trans (le_max_right _ _) h1
    · exact h2 k hk

/-- The foldl computing a max equals its seed or the value at some list
element. -/
theorem foldl_max_cases (f : ℕ → WithBot ℚ) (l : List ℕ) :
    ∀ m : WithBot ℚ,
      l.foldl (fun acc n => max acc (f n)) m = m ∨
      ∃ n ∈ l, l.foldl (fun acc n => max acc (f n)) m = f n := by
  induction l with
  | nil => intro m; exact Or.inl rfl
  | cons n l ih =>
    intro m
    simp only [List.foldl_cons]
    rcases ih (max m (f n)) with h | ⟨k, hk, h⟩
    · rw [h]
      rcases max_cases m (f n) with ⟨h2, _⟩ | ⟨h2, _⟩
      · exact Or.inl h2
      · exact Or.inr ⟨n, List.mem_cons_self n l, h2⟩
    · exact Or.inr ⟨k, List.mem_cons_of_mem n hk, h⟩

/-- listMaxQ dominates every in-bounds value. -/
theorem listMaxQ_le (N : ℕ) (f : ℕ → WithBot ℚ) (n : ℕ) (hn : n < N) :
    f n ≤ listMaxQ N f :=
  (foldl_max_le f (List.range N) ⊥).2 n (List.mem_range.mpr hn)

/-- listMaxQ is bottom exactly when every in-bounds value is bottom. -/
theorem listMaxQ_eq_bot_iff (N : ℕ) (f : ℕ → WithBot ℚ) :
    listMaxQ N f = ⊥ ↔ ∀ n < N, f n = ⊥ := by
  constructor
  · intro h n hn
    exact le_bot_iff.mp (h ▸ listMaxQ_le N f n hn)
  · intro h
    rcases foldl_max_cases f (List.range N) ⊥ with h2 | ⟨n, hn, h2⟩
    · exact h2
    · rw [listMaxQ, h2]; exact h n (List.mem_range.mp hn)

/-- A non-bottom listMaxQ is attained at some in-bounds index. -/
theorem listMaxQ_attained (N : ℕ) (f : ℕ → WithBot ℚ) (h : listMaxQ N f ≠ ⊥) :
    ∃ n < N, listMaxQ N f = f n := by
  rcases foldl_max_cases f (List.range N) ⊥ with h2 | ⟨n, hn, h2⟩
  · exact absurd h2 h
  · exact ⟨n, List.mem_range.mp hn, h2⟩

/-- The hidden state before step t depends only on the observations before t. -/
theorem hiddenAt_congr {H : Type} (E : QEstimator H) (os os2 : ℕ → ObsVec) :
    ∀ t : ℕ, (∀ i < t, os2 i = os i) → hiddenAt E os2 t = hiddenAt E os t := by
  intro t
  induction t with
  | zero => intro _; rfl
  | succ t ih =>
    intro h
    show (E.step (hiddenAt E os2 t) (os2 t)).1 = (E.step (hiddenAt E os t) (os t)).1
    rw [ih (fun i hi => h i (Nat.lt_succ_of_lt hi)), h t (Nat.lt_succ_self t)]

/-- The Q-vector at step t depends only on the observations up to t. -/
theorem qAt_congr {H : Type} (E : QEstimator H) (os os2 : ℕ → ObsVec) (t : ℕ)
    (h : ∀ i ≤ t, os2 i = os i) : qAt E os2 t = qAt E os t := by
  show (E.step (hiddenAt E os2 t) (os2 t)).2 = (E.step (hiddenAt E os t) (os t)).2
  rw [hiddenAt_congr E os os2 t (fun i hi => h i (le_of_lt hi)), h t le_rfl]

/-- Value of a sum of dual numbers. -/
theorem Dual.val_sum {ι : Type} (s : Finset ι) (f : ι → Dual) :
    (∑ i ∈ s, f i).val = ∑ i ∈ s, (f i).val :=
  map_sum Dual.valHom f s

/-- Value of a product of dual numbers. -/
theorem Dual.val_mul (a b : Dual) : (a * b).val = a.val * b.val := rfl

/-- Value of a difference of dual numbers. -/
theorem Dual.val_sub (a b : Dual) : (a - b).val = a.val - b.val := rfl

/-- Value of a sum of two dual numbers. -/
theorem Dual.val_add (a b : Dual) : (a + b).val = a.val + b.val := rfl

/-- Forward succeeds and returns the component definitions whenever the state
check and the assertion pass. -/
theorem forward_eq_ok {H : Type} (L : JointQLoss H) (B T : ℕ) (args : LossArgs)
    (h1 : args.stateOpt.isSome = args.nextStateOpt.isSome)
    (h2 : ¬ assertFailed L B T args) :
    JointQLoss.forward L B T args =
      .ok { loss := lossValue L B T args
          , maskOut := args.mask
          , maskedTdError := maskedTd L args
          , chosen := mixedChosen L args
          , targets := tdTargets L args } := by
  unfold JointQLoss.forward
  rw [if_neg (by simp [h1]), if_neg h2]

/-- Anything forward returns successfully is the record of the component
definitions. -/
theorem forward_ok_elim {H : Type} (L : JointQLoss H) (B T : ℕ) (args : LossArgs)
    (out : LossOutput) (hok : JointQLoss.forward L B T args = .ok out) :
    out.loss = lossValue L B T args ∧ out.maskOut = args.mask ∧
    out.maskedTdError = maskedTd L args ∧ out.chosen = mixedChosen L args ∧
    out.targets = tdTargets L args := by
  unfold JointQLoss.forward at hok
  by_cases hc1 : args.stateOpt.isSome != args.nextStateOpt.isSome
  · rw [if_pos hc1] at hok; exact absurd hok (by simp)
  · rw [if_neg hc1] at hok
    by_cases hc2 : assertFailed L B T args
    · rw [if_pos hc2] at hok; exact absurd hok (by simp)
    · rw [if_neg hc2] at hok
      have := (Except.ok.injEq _ _).mp hok.symm
      subst this
      exact ⟨rfl, rfl, rfl, rfl, rfl⟩

/-- C6: target network parameters are bit-identical across any number of
learn_on_batch calls (only the online model and mixer parameters are handed to
the optimizer); update_target performs a full parameter copy from the online
model (and mixer, when configured); and construction ends with an initial
sync. -/
theorem c6_target_freeze (lr : ℚ) (grad : List ℚ → List ℚ) (s : JointQPolicy) (n : ℕ) :
    ((JointQPolicy.learn_on_batch lr grad)^[n] s).target_model = s.target_model ∧
    ((JointQPolicy.learn_on_batch lr grad)^[n] s).target_mixer = s.target_mixer ∧
    (JointQPolicy.update_target s).target_model = s.model ∧
    (s.mixer.isSome = true → (JointQPolicy.update_target s).target_mixer = s.mixer) ∧
    ∀ m tm mx tmx, (JointQPolicy.construct m tm mx tmx).target_model = m ∧
      (mx.isSome = true → (JointQPolicy.construct m tm mx tmx).target_mixer = mx) := by
  have key : ∀ (k : ℕ) (s0 : JointQPolicy),
      ((JointQPolicy.learn_on_batch lr grad)^[k] s0).target_model = s0.target_model ∧
      ((JointQPolicy.learn_on_batch lr grad)^[k] s0).target_mixer = s0.target_mixer := by
    intro k
    induction k with
    | zero => intro s0; exact ⟨rfl, rfl⟩
    | succ k ih =>
      intro s0
      rw [Function.iterate_succ_apply]
      exact ⟨(ih _).1, (ih _).2⟩
  refine ⟨(key n s).1, (key n s).2, rfl, ?_, ?_⟩
  · intro h
    simp [JointQPolicy.update_target, h]
  · intro m tm mx tmx
    refine ⟨rfl, ?_⟩
    intro h
    simp [JointQPolicy.construct, JointQPolicy.update_target, h]

/-- C6 witness: two training calls leave the target parameters of a concrete
policy untouched, and a sync copies the online parameters. -/
theorem c6_target_freeze_witness :
    polWithMixer.mixer.isSome = true ∧
    ((JointQPolicy.learn_on_batch 1 id)^[2] polWithMixer).target_model =
      polWithMixer.target_model ∧
    ((JointQPolicy.learn_on_batch 1 id)^[2] polWithMixer).target_mixer =
      polWithMixer.target_mixer ∧
    (JointQPolicy.update_target polWithMixer).target_model = polWithMixer.model ∧
    (JointQPolicy.update_target polWithMixer).target_mixer = polWithMixer.mixer := by
  have h := c6_target_freeze 1 id polWithMixer 2
  exact ⟨rfl, h.1, h.2.1, h.2.2.1, h.2.2.2.1 rfl⟩

/-- C7: the weight blob carries exactly the keys model, target_model, mixer,
target_mixer, with the mixer entries None when no mixer is configured, and
loading the blob back is an identity, so every Q-value computed from the
parameters is unchanged. -/
theorem c7_weights_roundtrip (s : JointQPolicy) :
    (JointQPolicy.get_weights s).map Prod.fst =
      ["model", "target_model", "mixer", "target_mixer"] ∧
    (s.mixer = none →
      weightEntry (JointQPolicy.get_weights s) "mixer" = none ∧
      weightEntry (JointQPolicy.get_weights s) "target_mixer" = none) ∧
    JointQPolicy.set_weights s (JointQPolicy.get_weights s) = s ∧
    ∀ (Q : List ℚ → ℕ → ℚ) (x : ℕ),
      Q (JointQPolicy.set_weights s (JointQPolicy.get_weights s)).model x = Q s.model x ∧
      Q (JointQPolicy.set_weights s (JointQPolicy.get_weights s)).target_model x =
        Q s.target_model x := by
  obtain ⟨m, tm, mx, tmx⟩ := s
  have hrt : JointQPolicy.set_weights ⟨m, tm, mx, tmx⟩
      (JointQPolicy.get_weights ⟨m, tm, mx, tmx⟩) = ⟨m, tm, mx, tmx⟩ := by
    cases mx <;> rfl
  refine ⟨rfl, ?_, hrt, ?_⟩
  · intro h
    subst h
    exact ⟨rfl, rfl⟩
  · intro Q x
    rw [hrt]
    exact ⟨rfl, rfl⟩

/-- C7 witness: the round trip at a concrete policy without a mixer. -/
theorem c7_weights_roundtrip_witness :
    polNoMixer.mixer = none ∧
    weightEntry (JointQPolicy.get_weights polNoMixer) "mixer" = none ∧
    weightEntry (JointQPolicy.get_weights polNoMixer) "target_mixer" = none ∧
    JointQPolicy.set_weights polNoMixer (JointQPolicy.get_weights polNoMixer) = polNoMixer := by
  have h := c7_weights_roundtrip polNoMixer
  exact ⟨rfl, (h.2.1 rfl).1, (h.2.1 rfl).2, h.2.2.1⟩

/-- Position b * T + t of the tiled arange is t, for in-bounds b and t. -/
theorem tiledArange_getD (T : ℕ) :
    ∀ (b B t : ℕ), b < B → t < T → (tiledArange B T).getD (b * T + t) 0 = t := by
  intro b
  induction b with
  | zero =>
    intro B t hb ht
    match B, hb with
    | B + 1, _ =>
      show (List.range T ++ tiledArange B T).getD (0 * T + t) 0 = t
      rw [Nat.zero_mul, Nat.zero_add,
        List.getD_append _ _ _ _ (by simpa using ht),
        List.getD_eq_getElem _ _ (by simpa using ht)]
      simp
  | succ b ih =>
    intro B t hb ht
    match B, hb with
    | B + 1, hb =>
      show (List.range T ++ tiledArange B T).getD ((b + 1) * T + t) 0 = t
      have harith : (b + 1) * T + t = T + (b * T + t) := by ring
      rw [harith, List.getD_append_right _ _ _ _ (by simp), List.length_range,
        Nat.add_sub_cancel_left]
      exact ih B t (Nat.lt_of_succ_lt_succ hb) ht

/-- C8: the validity mask built by learn_on_batch is 1 at (b, t, agent)
exactly when t is below fragment b's length, for every agent; and in the
concrete two-episode scenario with lengths 3 and 5 the batch has B = 2,
T = 5 and masks 1,1,1,0,0 and 1,1,1,1,1. -/
theorem c8_sequence_mask (seqLens : List ℕ) (b t a : ℕ)
    (hb : b < seqLens.length) (ht : t < seqMax seqLens) :
    (makeMask seqLens b t a = if t < seqLens.getD b 0 then 1 else 0) ∧
    ([3, 5].length = 2 ∧ seqMax [3, 5] = 5 ∧
      (∀ t2 < 5, ∀ a2 : ℕ, makeMask [3, 5] 0 t2 a2 = if t2 < 3 then 1 else 0) ∧
      ∀ t2 < 5, ∀ a2 : ℕ, makeMask [3, 5] 1 t2 a2 = 1) := by
  constructor
  · unfold makeMask
    rw [tiledArange_getD (seqMax seqLens) b seqLens.length t hb ht]
  · refine ⟨rfl, rfl, ?_, ?_⟩
    · intro t2 ht2 a2
      unfold makeMask
      simp only [show [3, 5].length = 2 from rfl, show seqMax [3, 5] = 5 from rfl,
        show [3, 5].getD 0 0 = 3 from rfl]
      rw [tiledArange_getD 5 0 2 t2 (by decide) ht2]
    · intro t2 ht2 a2
      unfold makeMask
      simp only [show [3, 5].length = 2 from rfl, show seqMax [3, 5] = 5 from rfl,
        show [3, 5].getD 1 0 = 5 from rfl]
      rw [tiledArange_getD 5 1 2 t2 (by decide) ht2, if_pos ht2]

/-- C8 witness: the mask characterization applied at fragment 1, timestep 4
of the two-episode batch. -/
theorem c8_sequence_mask_witness :
    (1 < [3, 5].length ∧ 4 < seqMax [3, 5]) ∧
    makeMask [3, 5] 1 4 0 = if 4 < [3, 5].getD 1 0 then 1 else 0 := by
  refine ⟨by decide, ?_⟩
  exact (c8_sequence_mask [3, 5] 1 4 0 (by decide) (by decide)).1

/-- C9: compute_actions forces the Q-value of every unavailable action to
negative infinity before any sampling or argmax, and whenever the agent has
at least one available action the selected action is never a masked one. -/
theorem c9_no_masked_action (N : ℕ) (q avail : ℕ → ℕ → ℕ → ℚ)
    (explore useRandom : Bool) (r b a : ℕ)
    (hex : ∃ n < N, avail b a n ≠ 0) :
    (∀ n, avail b a n = 0 → maskedQValues q avail b a n = ⊥) ∧
    avail b a (computeActionSel N q avail explore useRandom r b a) ≠ 0 := by
  obtain ⟨n, hn, hv⟩ := hex
  have hnb : maskedQValues q avail b a n ≠ ⊥ := by
    simp [maskedQValues, hv]
  constructor
  · intro m hm
    simp [maskedQValues, hm]
  · unfold computeActionSel explorationAction
    by_cases hc : explore && useRandom
    · rw [if_pos hc]
      set l := (List.range N).filter fun m => decide (maskedQValues q avail b a m ≠ ⊥) with hl
      have hmem : n ∈ l := by
        rw [hl]
        exact List.mem_filter.mpr ⟨List.mem_range.mpr hn, by simpa using hnb⟩
      have hlen : 0 < l.length := List.length_pos.mpr (List.ne_nil_of_mem hmem)
      have hidx : r % l.length < l.length := Nat.mod_lt _ hlen
      rw [List.getD_eq_getElem _ _ hidx]
      have hsel : l.get ⟨r % l.length, hidx⟩ ∈ l := List.get_mem l _ _
      have hsel2 : l.get ⟨r % l.length, hidx⟩ ∈
          (List.range N).filter fun m => decide (maskedQValues q avail b a m ≠ ⊥) := by
        rw [← hl]; exact hsel
      have hprop : maskedQValues q avail b a (l.get ⟨r % l.length, hidx⟩) ≠ ⊥ := by
        have := (List.mem_filter.mp hsel2).2
        simpa using this
      intro h0
      refine hprop ?_
      have h0g : avail b a (l.get ⟨r % l.length, hidx⟩) = 0 := h0
      unfold maskedQValues
      rw [if_pos h0g]
    · rw [if_neg hc]
      intro h0
      have hbot : maskedQValues q avail b a (argmaxQ N (maskedQValues q avail b a)) = ⊥ := by
        simp [maskedQValues, h0]
      have hle := argmaxQ_le N (maskedQValues q avail b a) n hn
      rw [hbot] at hle
      exact hnb (le_bot_iff.mp hle)

/-- C9 witness: with two actions of which only action 0 is available, both an
exploring and a greedy call select an available action. -/
theorem c9_no_masked_action_witness :
    (∃ n < 2, (fun (_ _ n : ℕ) => if n = 0 then (1 : ℚ) else 0) 0 0 n ≠ 0) ∧
    (fun (_ _ n : ℕ) => if n = 0 then (1 : ℚ) else 0) 0 0
      (computeActionSel 2 (fun _ _ n => if n = 0 then 0 else 9)
        (fun _ _ n => if n = 0 then 1 else 0) true true 7 0 0) ≠ 0 := by
  refine ⟨by decide, ?_⟩
  exact (c9_no_masked_action 2 (fun _ _ n => if n = 0 then 0 else 9)
    (fun _ _ n => if n = 0 then 1 else 0) true true 7 0 0 ⟨0, by decide, by decide⟩).2

/-- C4: actions whose next-step mask is 0 at a valid timestep have their
Q-value forced to negative infinity in both the target and the detached
online tensors before any max or argmax is taken, and a loss call on a batch
with an in-bounds (b, t, agent) at which every action is masked fails with
the assertion rather than recovering. -/
theorem c4_all_masked_fatal {H : Type} (L : JointQLoss H) (B T : ℕ) (args : LossArgs)
    (b t a : ℕ) (hb : b < B) (ht : t < T) (ha : a < L.n_agents) (hN : 0 < L.n_actions)
    (hstate : args.stateOpt.isSome = args.nextStateOpt.isSome)
    (hvalid : args.mask b t a = 1)
    (hall : ∀ n < L.n_actions, args.nextActionMask b t a n = 0) :
    (∀ b2 t2 a2 n, args.nextActionMask b2 t2 a2 n = 0 → args.mask b2 t2 a2 = 1 →
        maskedTargetNext L args b2 t2 a2 n = ⊥ ∧ maskedOnlineNext L args b2 t2 a2 n = ⊥) ∧
    JointQLoss.forward L B T args =
      .error "target_max_qvals contains a masked action" := by
  constructor
  · intro b2 t2 a2 n h1 h2
    constructor <;> simp [maskedTargetNext, maskedOnlineNext, ignoreActionTp1, h1, h2]
  · have hfail : assertFailed L B T args := by
      refine ⟨b, hb, t, ht, a, ha, ?_⟩
      unfold targetMaxQvalsW
      by_cases hd : L.double_q
      · rw [if_pos hd]
        have hlt := argmaxQ_lt L.n_actions (maskedOnlineNext L args b t a) hN
        simp [maskedTargetNext, ignoreActionTp1, curMaxActions, hall _ hlt, hvalid]
      · rw [if_neg hd, listMaxQ_eq_bot_iff]
        intro n hn
        simp [maskedTargetNext, ignoreActionTp1, hall n hn, hvalid]
    unfold JointQLoss.forward
    rw [if_neg (by simp [hstate]), if_pos hfail]

/-- C4 witness: a concrete one-step batch whose only next-step action is
masked makes the loss call fail with the assertion. -/
theorem c4_all_masked_fatal_witness :
    ((0 : ℕ) < 1 ∧ argsC4.mask 0 0 0 = 1 ∧ ∀ n < LC1.n_actions,
      argsC4.nextActionMask 0 0 0 n = 0) ∧
    JointQLoss.forward LC1 1 1 argsC4 =
      .error "target_max_qvals contains a masked action" := by
  refine ⟨⟨by decide, by decide, by decide⟩, ?_⟩
  exact (c4_all_masked_fatal LC1 1 1 argsC4 0 0 0 (by decide) (by decide) (by decide)
    (by decide) rfl (by decide) (by decide)).2

/-- C2 counterexample: a successful loss call in double-Q mode with a padded
timestep (0, 1, 0) at which action 0 is valid (next-step action mask 1) yet
the online argmax, taken over Q-values that were never masked because the
timestep is padded, selects action 1 whose action mask is 0.  The claim's
guarantee therefore fails as stated for (batch, time, agent) triples whose
timestep is padded. -/
theorem c2_counterexample :
    isOkE (JointQLoss.forward LC2 1 2 argsC2) = true ∧
    LC2.double_q = true ∧
    argsC2.mask 0 1 0 = 0 ∧
    (∃ n < LC2.n_actions, argsC2.nextActionMask 0 1 0 n = 1) ∧
    argsC2.nextActionMask 0 1 0 (curMaxActions LC2 argsC2 0 1 0) = 0 := by
  decide

/-- C2 (amended: the no-masked-selection guarantee holds at valid timesteps):
at every (b, t, agent) whose validity mask is 1, with 0/1 action masks and at
least one valid action, the double-Q target is the target network's Q-value
gathered at the argmax of the detached online next-step Q-values, that argmax
index has action mask 1, and with double-Q disabled the target is the max of
the masked target Q-values, attained at an index with action mask 1. -/
theorem c2_target_selection {H : Type} (L : JointQLoss H) (args : LossArgs) (b t a : ℕ)
    (hN : 0 < L.n_actions)
    (hvalid : args.mask b t a = 1)
    (hbool : ∀ n < L.n_actions,
      args.nextActionMask b t a n = 0 ∨ args.nextActionMask b t a n = 1)
    (hex : ∃ n < L.n_actions, args.nextActionMask b t a n = 1) :
    (L.double_q = true →
      args.nextActionMask b t a (curMaxActions L args b t a) = 1 ∧
      targetMaxQvalsW L args b t a =
        (targetMacOutNext L args b t a (curMaxActions L args b t a) : ℚ)) ∧
    (L.double_q = false →
      ∃ n < L.n_actions, args.nextActionMask b t a n = 1 ∧
        targetMaxQvalsW L args b t a = (targetMacOutNext L args b t a n : ℚ) ∧
        ∀ m < L.n_actions,
          maskedTargetNext L args b t a m ≤ (targetMacOutNext L args b t a n : ℚ)) := by
  obtain ⟨n, hn, h1⟩ := hex
  have hnotig : ignoreActionTp1 args b t a n = false := by
    simp [ignoreActionTp1, h1]
  constructor
  · intro hd
    have hjlt : curMaxActions L args b t a < L.n_actions :=
      argmaxQ_lt L.n_actions (maskedOnlineNext L args b t a) hN
    have hge : maskedOnlineNext L args b t a n ≤
        maskedOnlineNext L args b t a (curMaxActions L args b t a) :=
      argmaxQ_le L.n_actions (maskedOnlineNext L args b t a) n hn
    have hjne : maskedOnlineNext L args b t a (curMaxActions L args b t a) ≠ ⊥ := by
      intro hbot
      rw [hbot, le_bot_iff] at hge
      rw [maskedOnlineNext, hnotig] at hge
      simp at hge
    have hignj : ignoreActionTp1 args b t a (curMaxActions L args b t a) = false := by
      cases hig : ignoreActionTp1 args b t a (curMaxActions L args b t a)
      · rfl
      · exact absurd (by rw [maskedOnlineNext, hig]; rfl) hjne
    have hmaskj : args.nextActionMask b t a (curMaxActions L args b t a) ≠ 0 := by
      intro h0
      have := of_decide_eq_false hignj
      exact this ⟨h0, hvalid⟩
    refine ⟨(hbool _ hjlt).resolve_left hmaskj, ?_⟩
    rw [targetMaxQvalsW, if_pos hd, maskedTargetNext, hignj]
    rfl
  · intro hd
    have h1ne : maskedTargetNext L args b t a n ≠ ⊥ := by
      rw [maskedTargetNext, hnotig]
      simp
    have hmne : listMaxQ L.n_actions (maskedTargetNext L args b t a) ≠ ⊥ := by
      intro hbot
      exact h1ne (le_bot_iff.mp
        (hbot ▸ listMaxQ_le L.n_actions (maskedTargetNext L args b t a) n hn))
    obtain ⟨n0, hn0, heq⟩ :=
      listMaxQ_attained L.n_actions (maskedTargetNext L args b t a) hmne
    have hn0ne : maskedTargetNext L args b t a n0 ≠ ⊥ := heq ▸ hmne
    have hig0 : ignoreActionTp1 args b t a n0 = false := by
      cases hig : ignoreActionTp1 args b t a n0
      · rfl
      · exact absurd (by rw [maskedTargetNext, hig]; rfl) hn0ne
    have hmask0 : args.nextActionMask b t a n0 ≠ 0 := by
      intro h0
      exact of_decide_eq_false hig0 ⟨h0, hvalid⟩
    have hcoe : maskedTargetNext L args b t a n0 =
        (targetMacOutNext L args b t a n0 : ℚ) := by
      rw [maskedTargetNext, hig0]
      rfl
    refine ⟨n0, hn0, (hbool _ hn0).resolve_left hmask0, ?_, ?_⟩
    · rw [targetMaxQvalsW, if_neg (by simp [hd]), heq, hcoe]
    · intro m hm
      rw [← hcoe, ← heq]
      exact listMaxQ_le L.n_actions (maskedTargetNext L args b t a) m hm

/-- C2 witness: the amended selection guarantee applied at the valid timestep
of the C1 witness batch. -/
theorem c2_target_selection_witness :
    ((0 : ℕ) < LC1.n_actions ∧ argsC1.mask 0 0 0 = 1 ∧
      (∃ n < LC1.n_actions, argsC1.nextActionMask 0 0 0 n = 1)) ∧
    (argsC1.nextActionMask 0 0 0 (curMaxActions LC1 argsC1 0 0 0) = 1 ∧
      targetMaxQvalsW LC1 argsC1 0 0 0 =
        (targetMacOutNext LC1 argsC1 0 0 0 (curMaxActions LC1 argsC1 0 0 0) : ℚ)) := by
  refine ⟨⟨by decide, by decide, by decide⟩, ?_⟩
  exact (c2_target_selection LC1 argsC1 0 0 0 (by decide) (by decide)
    (by intro n hn; right; rfl) ⟨0, by decide, by decide⟩).1 rfl


/-- C5 counterexample: on a two-agent batch with per-agent target values 1 and
-1, the mixer-free loss is 81/100 while the VDN-mixer loss is 0, so omitting
the mixer is not numerically equivalent to the additive mixer. -/
theorem c5_counterexample :
    lossOf (JointQLoss.forward LC5none 1 1 argsC5) = some (81 / 100) ∧
    lossOf (JointQLoss.forward LC5vdn 1 1 argsC5) = some 0 ∧
    lossOf (JointQLoss.forward LC5none 1 1 argsC5) ≠
      lossOf (JointQLoss.forward LC5vdn 1 1 argsC5) := by
  have hnone : lossOf (JointQLoss.forward LC5none 1 1 argsC5) =
      some (lossValue LC5none 1 1 argsC5) := by
    rw [forward_eq_ok LC5none 1 1 argsC5 rfl (by decide)]
    rfl
  have hvdn : lossOf (JointQLoss.forward LC5vdn 1 1 argsC5) =
      some (lossValue LC5vdn 1 1 argsC5) := by
    rw [forward_eq_ok LC5vdn 1 1 argsC5 rfl (by decide)]
    rfl
  have hA1 : LC5none.n_agents = 2 := rfl
  have hA2 : LC5vdn.n_agents = 2 := rfl
  have hval1 : lossValue LC5none 1 1 argsC5 = 81 / 100 := by
    unfold lossValue maskSum
    rw [hA1]
    simp only [Finset.sum_range_succ, Finset.sum_range_zero]
    norm_num [maskedTd, tdError, mixedChosen, tdTargets, mixedTargetMax, LC5none,
      chosenActionQvals, macOut, qAt, hiddenAt, idEstimator, wholeObs, argsC5,
      targetMaxQvals, targetMaxQvalsW, maskedTargetNext, maskedOnlineNext,
      targetMacOutNext, curMaxActions, argmaxQ, ignoreActionTp1, listMaxQ]
  have hval2 : lossValue LC5vdn 1 1 argsC5 = 0 := by
    unfold lossValue maskSum
    rw [hA2]
    simp only [Finset.sum_range_succ, Finset.sum_range_zero]
    norm_num [maskedTd, tdError, mixedChosen, tdTargets, mixedTargetMax, LC5vdn, LC5none,
      vdnMixer, chosenActionQvals, macOut, qAt, hiddenAt, idEstimator, wholeObs, argsC5,
      targetMaxQvals, targetMaxQvalsW, maskedTargetNext, maskedOnlineNext,
      targetMacOutNext, curMaxActions, argmaxQ, ignoreActionTp1, listMaxQ,
      Finset.sum_range_succ]
  rw [hnone, hvdn, hval1, hval2]
  norm_num

theorem c5_single_agent_equiv {H : Type} (L Lvdn : JointQLoss H) (B T : ℕ) (args : LossArgs)
    (hA : L.n_agents = 1) (hmix : L.mixer = none)
    (hm : Lvdn.model = L.model) (htm : Lvdn.target_model = L.target_model)
    (hvA : Lvdn.n_agents = L.n_agents) (hvN : Lvdn.n_actions = L.n_actions)
    (hvd : Lvdn.double_q = L.double_q) (hvg : Lvdn.gamma = L.gamma)
    (hvmix : Lvdn.mixer = some (vdnMixer L.n_agents))
    (hvtmix : Lvdn.target_mixer = some (vdnMixer L.n_agents)) :
    lossOf (JointQLoss.forward L B T args) = lossOf (JointQLoss.forward Lvdn B T args) := by
  obtain ⟨Em, Et, mix, tmix, nag, nact, dq, g⟩ := L
  obtain ⟨Em2, Et2, mix2, tmix2, nag2, nact2, dq2, g2⟩ := Lvdn
  simp only at hA hmix hm htm hvA hvN hvd hvg hvmix hvtmix
  subst hm htm hvA hvN hvd hvg hA hmix hvmix hvtmix
  have hmc : ∀ b t, mixedChosen
      (JointQLoss.mk Em2 Et2 (some (vdnMixer 1)) (some (vdnMixer 1)) 1 nact2 dq2 g2) args b t 0 =
      mixedChosen (JointQLoss.mk Em2 Et2 none tmix 1 nact2 dq2 g2) args b t 0 := by
    intro b t
    show (∑ i ∈ Finset.range 1, chosenActionQvals
        (JointQLoss.mk Em2 Et2 (some (vdnMixer 1)) (some (vdnMixer 1)) 1 nact2 dq2 g2)
        args b t i) = _
    rw [Finset.sum_range_one]
    rfl
  have hmt : ∀ b t, mixedTargetMax
      (JointQLoss.mk Em2 Et2 (some (vdnMixer 1)) (some (vdnMixer 1)) 1 nact2 dq2 g2) args b t 0 =
      mixedTargetMax (JointQLoss.mk Em2 Et2 none tmix 1 nact2 dq2 g2) args b t 0 := by
    intro b t
    show (∑ i ∈ Finset.range 1, targetMaxQvals
        (JointQLoss.mk Em2 Et2 (some (vdnMixer 1)) (some (vdnMixer 1)) 1 nact2 dq2 g2)
        args b t i) = _
    rw [Finset.sum_range_one]
    rfl
  have hlv : lossValue (JointQLoss.mk Em2 Et2 none tmix 1 nact2 dq2 g2) B T args =
      lossValue (JointQLoss.mk Em2 Et2 (some (vdnMixer 1)) (some (vdnMixer 1)) 1 nact2 dq2 g2)
        B T args := by
    unfold lossValue maskSum
    congr 1
    refine Finset.sum_congr rfl fun b _ => Finset.sum_congr rfl fun t _ =>
      Finset.sum_congr rfl fun a ha => ?_
    have ha0 : a = 0 := Nat.lt_one_iff.mp (Finset.mem_range.mp ha)
    subst ha0
    unfold maskedTd tdError tdTargets
    rw [hmc, hmt]
  unfold JointQLoss.forward
  by_cases h1 : args.stateOpt.isSome != args.nextStateOpt.isSome
  · rw [if_pos h1, if_pos h1]
  · rw [if_neg h1, if_neg h1]
    by_cases h2 : assertFailed (JointQLoss.mk Em2 Et2 none tmix 1 nact2 dq2 g2) B T args
    · rw [if_pos h2, if_pos (show assertFailed
        (JointQLoss.mk Em2 Et2 (some (vdnMixer 1)) (some (vdnMixer 1)) 1 nact2 dq2 g2) B T args
        from h2)]
    · rw [if_neg h2, if_neg (show ¬ assertFailed
        (JointQLoss.mk Em2 Et2 (some (vdnMixer 1)) (some (vdnMixer 1)) 1 nact2 dq2 g2) B T args
        from h2)]
      simp only [lossOf, hlv]


/-- C5 witness: the single-agent equivalence applied to the C1 witness module
and a VDN-mixed copy of it. -/
theorem c5_single_agent_equiv_witness :
    (LC1.n_agents = 1 ∧ LC1.mixer = none) ∧
    lossOf (JointQLoss.forward LC1 1 1 argsC1) =
      lossOf (JointQLoss.forward
        { LC1 with mixer := some (vdnMixer LC1.n_agents)
                 , target_mixer := some (vdnMixer LC1.n_agents) } 1 1 argsC1) := by
  refine ⟨⟨rfl, rfl⟩, ?_⟩
  exact c5_single_agent_equiv LC1 _ 1 1 argsC1 rfl rfl rfl rfl rfl rfl rfl rfl rfl rfl

/-- Value of a constant dual number. -/
theorem Dual.val_const (q : ℚ) : (Dual.const q).val = q := rfl

/-- Value of one masked TD-error term of the dual-number loss stage, when the
inputs carry no derivative. -/
theorem tdStageTerm_val {H : Type} (L : JointQLoss H) (args : LossArgs) (b t a : ℕ) :
    (tdStageTerm L.gamma args.rewards args.terminated args.mask
      (fun b2 t2 a2 => Dual.const (mixedChosen L args b2 t2 a2))
      (fun b2 t2 a2 => Dual.const (mixedTargetMax L args b2 t2 a2)) b t a).val =
      maskedTd L args b t a := rfl

/-- C1: on every successful loss call the TD target is
reward + discount * (1 - terminated) * target value; the final loss stage is
invariant under the derivative components of the target branch (the detach),
while its value is exactly the returned loss; and on a 1-agent, 1-timestep
batch with reward 1, discount 9/10, terminated 0, target Q 2 and no mixer the
TD target is 14/5 and the loss is (selected - 14/5) squared. -/
theorem c1_td_target_detached {H : Type} (L : JointQLoss H) (B T : ℕ) (args : LossArgs)
    (out : LossOutput) (hok : JointQLoss.forward L B T args = .ok out) :
    (∀ b t a, out.targets b t a =
      args.rewards b t a + L.gamma * (1 - args.terminated b t a) * mixedTargetMax L args b t a) ∧
    (∀ chosenD targetD targetD2 : ℕ → ℕ → ℕ → Dual,
      (∀ b t a, (targetD2 b t a).val = (targetD b t a).val) →
      tdStageLoss B T L.n_agents L.gamma args.rewards args.terminated args.mask chosenD targetD2 =
        tdStageLoss B T L.n_agents L.gamma args.rewards args.terminated args.mask
          chosenD targetD) ∧
    out.loss = (tdStageLoss B T L.n_agents L.gamma args.rewards args.terminated args.mask
      (fun b t a => Dual.const (mixedChosen L args b t a))
      (fun b t a => Dual.const (mixedTargetMax L args b t a))).val ∧
    (B = 1 → T = 1 → L.n_agents = 1 → L.mixer = none → L.gamma = 9 / 10 →
      args.rewards 0 0 0 = 1 → args.terminated 0 0 0 = 0 → args.mask 0 0 0 = 1 →
      targetMaxQvals L args 0 0 0 = 2 →
      out.targets 0 0 0 = 14 / 5 ∧
      out.loss = (out.chosen 0 0 0 - 14 / 5) * (out.chosen 0 0 0 - 14 / 5)) := by
  obtain ⟨hl, hmo, hmtd, hch, htg⟩ := forward_ok_elim L B T args out hok
  refine ⟨?_, ?_, ?_, ?_⟩
  · rw [htg]
    exact fun b t a => rfl
  · intro chosenD targetD targetD2 hval
    unfold tdStageLoss
    congr 1
    refine Finset.sum_congr rfl fun b _ => Finset.sum_congr rfl fun t _ =>
      Finset.sum_congr rfl fun a _ => ?_
    have hv2 : (Dual.const (args.rewards b t a) +
        Dual.const (L.gamma * (1 - args.terminated b t a)) * targetD2 b t a).val =
        (Dual.const (args.rewards b t a) +
          Dual.const (L.gamma * (1 - args.terminated b t a)) * targetD b t a).val := by
      rw [Dual.val_add, Dual.val_add, Dual.val_mul, Dual.val_mul, hval]
    have hterm : tdStageTerm L.gamma args.rewards args.terminated args.mask chosenD targetD2
        b t a = tdStageTerm L.gamma args.rewards args.terminated args.mask chosenD targetD
        b t a := by
      unfold tdStageTerm Dual.detach
      rw [hv2]
    rw [hterm]
  · rw [hl]
    unfold lossValue tdStageLoss maskSum
    rw [Dual.val_mul, div_eq_mul_inv]
    simp only [Dual.val_sum, Dual.val_mul, tdStageTerm_val, Dual.val_const]
  · intro hB hT hA hmix hg hr hte hm ht2
    subst hB hT
    constructor
    · rw [htg]
      unfold tdTargets
      simp only [mixedTargetMax, hmix]
      rw [hr, hte, hg, ht2]
      norm_num
    · rw [hl, hch]
      unfold lossValue maskSum
      rw [hA]
      simp only [Finset.sum_range_one]
      unfold maskedTd tdError tdTargets
      simp only [mixedTargetMax, hmix]
      rw [hr, hte, hg, hm, ht2]
      norm_num

/-- C1 witness: the loss scenario at the concrete one-step batch with online
Q five: the target is 14/5 and the loss is (5 - 14/5) squared. -/
theorem c1_td_target_detached_witness :
    targetMaxQvals LC1 argsC1 0 0 0 = 2 ∧
    outC1.targets 0 0 0 = 14 / 5 ∧
    outC1.loss = (outC1.chosen 0 0 0 - 14 / 5) * (outC1.chosen 0 0 0 - 14 / 5) := by
  have hok : JointQLoss.forward LC1 1 1 argsC1 = .ok outC1 :=
    forward_eq_ok LC1 1 1 argsC1 rfl (by decide)
  have h := c1_td_target_detached LC1 1 1 argsC1 outC1 hok
  have ht2 : targetMaxQvals LC1 argsC1 0 0 0 = 2 := by decide
  exact ⟨ht2, h.2.2.2 rfl rfl rfl rfl rfl rfl rfl rfl ht2⟩

/-- C3: the loss is the sum of squared masked TD errors divided by the count
of valid mask entries, and for a padded batch (mask 1 exactly below each
fragment's length) the loss does not depend on anything stored in the padded
region: two argument sets agreeing on all valid data produce the same
result. -/
theorem c3_mask_normalization {H : Type} (L : JointQLoss H) (B T : ℕ)
    (args args2 : LossArgs) (len : ℕ → ℕ)
    (hmaskShape : ∀ b < B, ∀ t < T, ∀ a < L.n_agents,
      args.mask b t a = if t < len b then 1 else 0)
    (hmaskEq : ∀ b < B, ∀ t < T, ∀ a : ℕ, args2.mask b t a = args.mask b t a)
    (hrew : ∀ b < B, ∀ t < T, t < len b → ∀ a : ℕ,
      args2.rewards b t a = args.rewards b t a)
    (hact : ∀ b < B, ∀ t < T, t < len b → ∀ a : ℕ,
      args2.actions b t a = args.actions b t a)
    (htermin : ∀ b < B, ∀ t < T, t < len b → ∀ a : ℕ,
      args2.terminated b t a = args.terminated b t a)
    (hobs : ∀ b < B, ∀ t < T, t < len b → ∀ a : ℕ, args2.obs b t a = args.obs b t a)
    (hnobs : ∀ b < B, ∀ t < T, t < len b → ∀ a : ℕ, args2.nextObs b t a = args.nextObs b t a)
    (hnam : ∀ b < B, ∀ t < T, t < len b → ∀ a n : ℕ,
      args2.nextActionMask b t a n = args.nextActionMask b t a n)
    (hstOpt : args2.stateOpt.isSome = args.stateOpt.isSome)
    (hnstOpt : args2.nextStateOpt.isSome = args.nextStateOpt.isSome)
    (hst : ∀ b < B, ∀ t < T, t < len b → effState args2 b t = effState args b t)
    (hnst : ∀ b < B, ∀ t < T, t < len b → effNextState args2 b t = effNextState args b t) :
    lossOf (JointQLoss.forward L B T args2) = lossOf (JointQLoss.forward L B T args) ∧
    ∀ out, JointQLoss.forward L B T args = .ok out →
      out.loss = (∑ b ∈ Finset.range B, ∑ t ∈ Finset.range T,
          ∑ a ∈ Finset.range L.n_agents, out.maskedTdError b t a * out.maskedTdError b t a) /
        (∑ b ∈ Finset.range B, ∑ t ∈ Finset.range T, ∑ a ∈ Finset.range L.n_agents,
          out.maskOut b t a) := by
  have hwhole : ∀ b, b < B → ∀ t, t < T → t < len b → ∀ a i, i ≤ t + 1 →
      wholeObs args2 b i a = wholeObs args b i a := by
    intro b hb t ht hlt a i hi
    unfold wholeObs
    by_cases h0 : i = 0
    · rw [if_pos h0, if_pos h0]
      exact hobs b hb 0 (Nat.lt_of_le_of_lt (Nat.zero_le t) ht)
        (Nat.lt_of_le_of_lt (Nat.zero_le t) hlt) a
    · rw [if_neg h0, if_neg h0]
      exact hnobs b hb (i - 1) (by omega) (by omega) a
  have hmac : ∀ b, b < B → ∀ t, t < T → t < len b → ∀ a i, i ≤ t + 1 →
      macOut L args2 b i a = macOut L args b i a := by
    intro b hb t ht hlt a i hi
    unfold macOut
    exact qAt_congr L.model (fun s => wholeObs args b s a) (fun s => wholeObs args2 b s a) i
      (fun j hj => hwhole b hb t ht hlt a j (le_trans hj hi))
  have htargf : ∀ b, b < B → ∀ t, t < T → t < len b → ∀ a,
      targetMacOutNext L args2 b t a = targetMacOutNext L args b t a := by
    intro b hb t ht hlt a
    unfold targetMacOutNext
    exact qAt_congr L.target_model (fun s => wholeObs args b s a) (fun s => wholeObs args2 b s a)
      (t + 1) (fun j hj => hwhole b hb t ht hlt a j hj)
  have hig : ∀ b, b < B → ∀ t, t < T → t < len b → ∀ a n,
      ignoreActionTp1 args2 b t a n = ignoreActionTp1 args b t a n := by
    intro b hb t ht hlt a n
    unfold ignoreActionTp1
    rw [hnam b hb t ht hlt a n, hmaskEq b hb t ht a]
  have hmtf : ∀ b, b < B → ∀ t, t < T → t < len b → ∀ a,
      maskedTargetNext L args2 b t a = maskedTargetNext L args b t a := by
    intro b hb t ht hlt a
    funext n
    unfold maskedTargetNext
    rw [hig b hb t ht hlt a n, htargf b hb t ht hlt a]
  have hmof : ∀ b, b < B → ∀ t, t < T → t < len b → ∀ a,
      maskedOnlineNext L args2 b t a = maskedOnlineNext L args b t a := by
    intro b hb t ht hlt a
    funext n
    unfold maskedOnlineNext
    rw [hig b hb t ht hlt a n, hmac b hb t ht hlt a (t + 1) le_rfl]
  have hW : ∀ b, b < B → ∀ t, t < T → t < len b → ∀ a,
      targetMaxQvalsW L args2 b t a = targetMaxQvalsW L args b t a := by
    intro b hb t ht hlt a
    unfold targetMaxQvalsW curMaxActions
    rw [hmtf b hb t ht hlt a, hmof b hb t ht hlt a]
  have hbotiff : ∀ b, b < B → ∀ t, t < T → ∀ a, a < L.n_agents →
      (targetMaxQvalsW L args2 b t a = ⊥ ↔ targetMaxQvalsW L args b t a = ⊥) := by
    intro b hb t ht a ha
    by_cases hlt : t < len b
    · rw [hW b hb t ht hlt a]
    · have hig2 : ∀ n, ignoreActionTp1 args2 b t a n = false := by
        intro n
        unfold ignoreActionTp1
        rw [hmaskEq b hb t ht a, hmaskShape b hb t ht a ha, if_neg hlt]
        simp
      have hig1 : ∀ n, ignoreActionTp1 args b t a n = false := by
        intro n
        unfold ignoreActionTp1
        rw [hmaskShape b hb t ht a ha, if_neg hlt]
        simp
      unfold targetMaxQvalsW
      by_cases hd : L.double_q
      · rw [if_pos hd, if_pos hd]
        unfold maskedTargetNext
        rw [hig1, hig2]
        simp
      · rw [if_neg hd, if_neg hd, listMaxQ_eq_bot_iff, listMaxQ_eq_bot_iff]
        refine ⟨fun h n hn => absurd (h n hn) ?_, fun h n hn => absurd (h n hn) ?_⟩
        · unfold maskedTargetNext
          rw [hig2 n]
          simp
        · unfold maskedTargetNext
          rw [hig1 n]
          simp
  have hassert : assertFailed L B T args2 ↔ assertFailed L B T args := by
    unfold assertFailed
    constructor
    · rintro ⟨b, hb, t, ht, a, ha, h⟩
      exact ⟨b, hb, t, ht, a, ha, (hbotiff b hb t ht a ha).mp h⟩
    · rintro ⟨b, hb, t, ht, a, ha, h⟩
      exact ⟨b, hb, t, ht, a, ha, (hbotiff b hb t ht a ha).mpr h⟩
  have hch : ∀ b, b < B → ∀ t, t < T → t < len b → ∀ i,
      chosenActionQvals L args2 b t i = chosenActionQvals L args b t i := by
    intro b hb t ht hlt i
    unfold chosenActionQvals
    rw [hmac b hb t ht hlt i t (Nat.le_succ t), hact b hb t ht hlt i]
  have hqv : ∀ b, b < B → ∀ t, t < T → t < len b → ∀ i,
      targetMaxQvals L args2 b t i = targetMaxQvals L args b t i := by
    intro b hb t ht hlt i
    unfold targetMaxQvals
    rw [hW b hb t ht hlt i]
  have hmcx : ∀ b, b < B → ∀ t, t < T → t < len b → ∀ a,
      mixedChosen L args2 b t a = mixedChosen L args b t a := by
    intro b hb t ht hlt a
    unfold mixedChosen
    cases hmx : L.mixer with
    | none => exact hch b hb t ht hlt a
    | some f =>
      have hfn : (fun i => chosenActionQvals L args2 b t i) =
          (fun i => chosenActionQvals L args b t i) := funext (hch b hb t ht hlt)
      rw [hfn, hst b hb t ht hlt]
  have hmtx : ∀ b, b < B → ∀ t, t < T → t < len b → ∀ a,
      mixedTargetMax L args2 b t a = mixedTargetMax L args b t a := by
    intro b hb t ht hlt a
    unfold mixedTargetMax
    cases hmx : L.mixer with
    | none => exact hqv b hb t ht hlt a
    | some f =>
      have hfn : (fun i => targetMaxQvals L args2 b t i) =
          (fun i => targetMaxQvals L args b t i) := funext (hqv b hb t ht hlt)
      rw [hfn, hnst b hb t ht hlt]
  have hlv : lossValue L B T args2 = lossValue L B T args := by
    unfold lossValue maskSum
    congr 1
    · refine Finset.sum_congr rfl fun b hb => Finset.sum_congr rfl fun t ht =>
        Finset.sum_congr rfl fun a ha => ?_
      rw [Finset.mem_range] at hb ht ha
      by_cases hlt : t < len b
      · unfold maskedTd tdError tdTargets
        rw [hmaskEq b hb t ht a, hmcx b hb t ht hlt a, hmtx b hb t ht hlt a,
          hrew b hb t ht hlt a, htermin b hb t ht hlt a]
      · have h1 : args.mask b t a = 0 := by
          rw [hmaskShape b hb t ht a ha, if_neg hlt]
        have h2 : args2.mask b t a = 0 := by
          rw [hmaskEq b hb t ht a, h1]
        unfold maskedTd
        rw [h1, h2]
        simp
    · refine Finset.sum_congr rfl fun b hb => Finset.sum_congr rfl fun t ht =>
        Finset.sum_congr rfl fun a ha => ?_
      rw [Finset.mem_range] at hb ht
      exact hmaskEq b hb t ht a
  constructor
  · unfold JointQLoss.forward
    rw [hstOpt, hnstOpt]
    by_cases h1 : args.stateOpt.isSome != args.nextStateOpt.isSome
    · rw [if_pos h1, if_pos h1]
    · rw [if_neg h1, if_neg h1]
      by_cases h2 : assertFailed L B T args
      · rw [if_pos (hassert.mpr h2), if_pos h2]
      · rw [if_neg (fun hh => h2 (hassert.mp hh)), if_neg h2]
        simp only [lossOf, hlv]
  · intro out hok
    obtain ⟨hl, hmo, hmtd, _, _⟩ := forward_ok_elim L B T args out hok
    rw [hl, hmo, hmtd]
    rfl

/-- C3 witness: changing the rewards and next observations stored in the
padded region of a concrete one-fragment batch (length 1, padded to T = 2)
does not change the loss. -/
theorem c3_mask_normalization_witness :
    lossOf (JointQLoss.forward LC1 1 2 args2C3) = lossOf (JointQLoss.forward LC1 1 2 argsC3) := by
  refine (c3_mask_normalization LC1 1 2 argsC3 args2C3 (fun _ => 1)
    (fun b _ t _ a _ => rfl)
    (fun b _ t _ a => rfl)
    (fun b _ t _ hlt a => by
      have h0 : t = 0 := Nat.lt_one_iff.mp hlt
      subst h0; rfl)
    (fun b _ t _ hlt a => rfl)
    (fun b _ t _ hlt a => rfl)
    (fun b _ t _ hlt a => rfl)
    (fun b _ t _ hlt a => by
      have h0 : t = 0 := Nat.lt_one_iff.mp hlt
      subst h0; rfl)
    (fun b _ t _ hlt a n => rfl)
    rfl rfl
    (fun b _ t _ hlt => rfl)
    (fun b _ t _ hlt => by
      have h0 : t = 0 := Nat.lt_one_iff.mp hlt
      subst h0; rfl)).1

/-- Splitting a sum over range (m + n) at m. -/
theorem sum_range_add_split (f : ℕ → ℝ) (m n : ℕ) :
    ∑ i ∈ Finset.range (m + n), f i =
      (∑ i ∈ Finset.range m, f i) + ∑ i ∈ Finset.range n, f (m + i) := by
  induction n with
  | zero => simp
  | succ n ih =>
    rw [Nat.add_succ, Finset.sum_range_succ, ih, Finset.sum_range_succ, add_assoc]

/-- A [B, T] grid sum indexed by b * T + t equals the flat sum over B * T. -/
theorem sum_grid_flatten (f : ℕ → ℝ) (Bn T : ℕ) :
    ∑ b ∈ Finset.range Bn, ∑ t ∈ Finset.range T, f (b * T + t) =
      ∑ i ∈ Finset.range (Bn * T), f i := by
  induction Bn with
  | zero => simp
  | succ Bn ih =>
    rw [Finset.sum_range_succ, ih, Nat.succ_mul, sum_range_add_split]

/-- C10: learn_on_batch divides the reshaped group rewards by n_agents before
they reach the loss, and with the standardize flag it further replaces them by
(reward - mean) / (std + 1/100000) over the whole batch, where mean and
unbiased standard deviation are taken over all scaled entries. -/
theorem c10_reward_scaling (B T A : ℕ) (rewFlat : ℕ → ℕ → ℝ)
    (b : Fin B) (t : Fin T) (a : Fin A) :
    lossRewards B T A false rewFlat b t a = rewFlat (b * T + t) a / (A : ℝ) ∧
    lossRewards B T A true rewFlat b t a =
      (rewFlat (b * T + t) a / (A : ℝ) -
          (∑ i ∈ Finset.range (B * T), ∑ j ∈ Finset.range A, rewFlat i j / (A : ℝ)) /
            (B * T * A : ℝ)) /
        (Real.sqrt ((∑ i ∈ Finset.range (B * T), ∑ j ∈ Finset.range A,
            (rewFlat i j / (A : ℝ) -
              (∑ i2 ∈ Finset.range (B * T), ∑ j2 ∈ Finset.range A, rewFlat i2 j2 / (A : ℝ)) /
                (B * T * A : ℝ)) ^ 2) / ((B * T * A : ℝ) - 1)) + 1 / 100000) := by
  have hmean : gridMean B T A (scaledRewards T A rewFlat) =
      (∑ i ∈ Finset.range (B * T), ∑ j ∈ Finset.range A, rewFlat i j / (A : ℝ)) /
        (B * T * A : ℝ) := by
    unfold gridMean scaledRewards reshapeRewards
    rw [sum_grid_flatten (fun i => ∑ j ∈ Finset.range A, rewFlat i j / (A : ℝ)) B T]
  have hstd : gridStd B T A (scaledRewards T A rewFlat) =
      Real.sqrt ((∑ i ∈ Finset.range (B * T), ∑ j ∈ Finset.range A,
          (rewFlat i j / (A : ℝ) -
            (∑ i2 ∈ Finset.range (B * T), ∑ j2 ∈ Finset.range A, rewFlat i2 j2 / (A : ℝ)) /
              (B * T * A : ℝ)) ^ 2) / ((B * T * A : ℝ) - 1)) := by
    unfold gridStd
    rw [hmean]
    unfold scaledRewards reshapeRewards
    rw [sum_grid_flatten (fun i => ∑ j ∈ Finset.range A,
      (rewFlat i j / (A : ℝ) -
        (∑ i2 ∈ Finset.range (B * T), ∑ j2 ∈ Finset.range A, rewFlat i2 j2 / (A : ℝ)) /
          (B * T * A : ℝ)) ^ 2) B T]
  refine ⟨rfl, ?_⟩
  show (scaledRewards T A rewFlat b t a - gridMean B T A (scaledRewards T A rewFlat)) /
      (gridStd B T A (scaledRewards T A rewFlat) + 1 / 100000) = _
  rw [hmean, hstd]
  rfl
